import Mathlib

/-!
# Verification of the Ardustat cell-analysis routines

Shallow embedding of `analysis.py` from the `cellanalysis` repository.

* `Trace` models the three aligned sequences (`self.time`, `self.voltage`,
  `self.current`) held by an `Ardustat` object; numeric values are modelled
  as rationals.
* `scanStep` / `Ardustat.get_cycle_data` embed the boundary-detection scan and
  the trapezoidal-integration pass of `Ardustat.get_cycle_data`.
* `processField` / `processRow` / `extractColumns` / `loadTrace` /
  `Ardustat.init` embed the file-loading loop of `Ardustat.__init__`, with a
  row abstracted as the list of its whitespace-separated fields and each field
  given as `some q` (parses as the float `q`) or `none` (fails `float(...)`).
-/

/-- The three aligned data sequences held by an `Ardustat` object. -/
structure Trace where
  time : List ℚ
  voltage : List ℚ
  current : List ℚ
deriving DecidableEq

/-- The mutable scan state of `get_cycle_data`: the accumulated per-cycle
lists and the three open buffers `time_group`, `voltage_group`,
`current_group`. -/
structure ScanState where
  time_cycles_raw_charge : List (List ℚ)
  voltage_cycles_raw_charge : List (List ℚ)
  current_cycles_raw_charge : List (List ℚ)
  time_cycles_raw_discharge : List (List ℚ)
  voltage_cycles_raw_discharge : List (List ℚ)
  current_cycles_raw_discharge : List (List ℚ)
  time_group : List ℚ
  voltage_group : List ℚ
  current_group : List ℚ
deriving DecidableEq

/-- The scan state at the start of `get_cycle_data`: everything empty. -/
def initState : ScanState := ⟨[], [], [], [], [], [], [], [], []⟩

/-- One iteration of the `for index in range(len(self.current)-1)` loop of
`Ardustat.get_cycle_data`: append sample `index` to the open buffers, then
test the two sign-change conditions and emit/reset on a boundary.  The
absolute value is applied to the current buffer on emission, as in the
source (`numpy.abs`). -/
def scanStep (tr : Trace) (st : ScanState) (index : ℕ) : ScanState :=
  let time_group := st.time_group ++ [tr.time.getD index 0]
  let voltage_group := st.voltage_group ++ [tr.voltage.getD index 0]
  let current_group := st.current_group ++ [tr.current.getD index 0]
  if tr.current.getD (index + 1) 0 > 0 ∧ tr.current.getD index 0 < 0 then
    { st with
      time_cycles_raw_charge := st.time_cycles_raw_charge ++ [time_group]
      voltage_cycles_raw_charge := st.voltage_cycles_raw_charge ++ [voltage_group]
      current_cycles_raw_charge :=
        st.current_cycles_raw_charge ++ [current_group.map (fun value => |value|)]
      time_group := []
      voltage_group := []
      current_group := [] }
  else if tr.current.getD (index + 1) 0 < 0 ∧ tr.current.getD index 0 > 0 then
    { st with
      time_cycles_raw_discharge := st.time_cycles_raw_discharge ++ [time_group]
      voltage_cycles_raw_discharge := st.voltage_cycles_raw_discharge ++ [voltage_group]
      current_cycles_raw_discharge :=
        st.current_cycles_raw_discharge ++ [current_group.map (fun value => |value|)]
      time_group := []
      voltage_group := []
      current_group := [] }
  else
    { st with
      time_group := time_group
      voltage_group := voltage_group
      current_group := current_group }

/-- The scan state after the first `m` iterations of the loop of
`get_cycle_data`. -/
def scanState (tr : Trace) (m : ℕ) : ScanState :=
  (List.range m).foldl (scanStep tr) initState

/-- `numpy.trapz(y, x=x)`: trapezoidal integration of `y` against `x`. -/
def trapz (y x : List ℚ) : ℚ :=
  (List.range (y.length - 1)).foldl
    (fun acc k => acc + (x.getD (k + 1) 0 - x.getD k 0) * (y.getD k 0 + y.getD (k + 1) 0) / 2) 0

/-- The attributes created by `Ardustat.get_cycle_data`. -/
structure CycleData where
  time_cycles_raw_charge : List (List ℚ)
  voltage_cycles_raw_charge : List (List ℚ)
  current_cycles_raw_charge : List (List ℚ)
  time_cycles_raw_discharge : List (List ℚ)
  voltage_cycles_raw_discharge : List (List ℚ)
  current_cycles_raw_discharge : List (List ℚ)
  charge_capacity : List ℚ
  charge_power : List ℚ
  discharge_capacity : List ℚ
  discharge_power : List ℚ
deriving DecidableEq

/-- `Ardustat.get_cycle_data`: the boundary-detection scan over
`range(len(self.current)-1)` followed by the two numeric-integration loops
(`numpy.trapz` of current against time, and of the pointwise
voltage-times-current power sequence against time). -/
def Ardustat.get_cycle_data (tr : Trace) : CycleData :=
  let st := (List.range (tr.current.length - 1)).foldl (scanStep tr) initState
  let discharge_capacity := (List.range st.current_cycles_raw_discharge.length).map
    (fun index =>
      trapz (st.current_cycles_raw_discharge.getD index [])
        (st.time_cycles_raw_discharge.getD index []))
  let discharge_power := (List.range st.current_cycles_raw_discharge.length).map
    (fun index =>
      let voltage := st.voltage_cycles_raw_discharge.getD index []
      let current := st.current_cycles_raw_discharge.getD index []
      trapz ((List.range current.length).map (fun i => voltage.getD i 0 * current.getD i 0))
        (st.time_cycles_raw_discharge.getD index []))
  let charge_capacity := (List.range st.current_cycles_raw_charge.length).map
    (fun index =>
      trapz (st.current_cycles_raw_charge.getD index [])
        (st.time_cycles_raw_charge.getD index []))
  let charge_power := (List.range st.current_cycles_raw_charge.length).map
    (fun index =>
      let voltage := st.voltage_cycles_raw_charge.getD index []
      let current := st.current_cycles_raw_charge.getD index []
      trapz ((List.range current.length).map (fun i => voltage.getD i 0 * current.getD i 0))
        (st.time_cycles_raw_charge.getD index []))
  { time_cycles_raw_charge := st.time_cycles_raw_charge
    voltage_cycles_raw_charge := st.voltage_cycles_raw_charge
    current_cycles_raw_charge := st.current_cycles_raw_charge
    time_cycles_raw_discharge := st.time_cycles_raw_discharge
    voltage_cycles_raw_discharge := st.voltage_cycles_raw_discharge
    current_cycles_raw_discharge := st.current_cycles_raw_discharge
    charge_capacity := charge_capacity
    charge_power := charge_power
    discharge_capacity := discharge_capacity
    discharge_power := discharge_power }

/-- The result of `get_cycle_data` when no boundary is ever detected. -/
def emptyCycleData : CycleData := ⟨[], [], [], [], [], [], [], [], [], []⟩

/-- Errors that can abort `Ardustat.__init__`: `valueError` models the
`ValueError` raised by a failing `float(value)`, `indexError` models the
`IndexError` raised by `self.time[0]` on an empty file. -/
inductive LoadError where
  | valueError
  | indexError
deriving DecidableEq

/-- The three raw column accumulators of `Ardustat.__init__` before time
normalization. -/
structure Columns where
  time : List ℚ
  voltage : List ℚ
  current : List ℚ
deriving DecidableEq

/-- The column-position attributes `time_index`, `voltage_index`,
`current_index` of the `Ardustat` class. -/
structure Config where
  time_index : ℕ
  voltage_index : ℕ
  current_index : ℕ
deriving DecidableEq

/-- The class-attribute defaults `time_index = 0`, `voltage_index = 5`,
`current_index = 8`. -/
def defaultConfig : Config := ⟨0, 5, 8⟩

/-- The keyword arguments accepted by `Ardustat.__init__(self, filepath,
**kwargs)`, restricted to the recognized configuration surface. -/
structure Kwargs where
  time_index : Option ℕ
  voltage_index : Option ℕ
  current_index : Option ℕ
deriving DecidableEq

/-- One step of the `for index, value in enumerate(row.split(' '))` loop:
a field at a recognized column position is parsed (`float` fails on `none`)
and appended to the matching column; all other fields are ignored. -/
def processField (cfg : Config) (acc : Columns) (p : ℕ × Option ℚ) :
    Except LoadError Columns :=
  if p.1 = cfg.time_index then
    match p.2 with
    | none => Except.error LoadError.valueError
    | some v => Except.ok { acc with time := acc.time ++ [v] }
  else if p.1 = cfg.voltage_index then
    match p.2 with
    | none => Except.error LoadError.valueError
    | some v => Except.ok { acc with voltage := acc.voltage ++ [v] }
  else if p.1 = cfg.current_index then
    match p.2 with
    | none => Except.error LoadError.valueError
    | some v => Except.ok { acc with current := acc.current ++ [v] }
  else
    Except.ok acc

/-- Process one row of the file: iterate over its enumerated fields. -/
def processRow (cfg : Config) (acc : Columns) (row : List (Option ℚ)) :
    Except LoadError Columns :=
  row.enum.foldlM (processField cfg) acc

/-- Process all rows of the file in order, extracting the three columns. -/
def extractColumns (cfg : Config) (rows : List (List (Option ℚ))) :
    Except LoadError Columns :=
  rows.foldlM (processRow cfg) ⟨[], [], []⟩

/-- `Ardustat.__init__`'s loading phase: extract the columns, then normalize
time by `self.time = [(x-self.time[0])/3600000 for x in self.time]`
(`self.time[0]` raises `IndexError` on an empty file). -/
def loadTrace (cfg : Config) (rows : List (List (Option ℚ))) :
    Except LoadError Trace :=
  match extractColumns cfg rows with
  | Except.error e => Except.error e
  | Except.ok cols =>
    match cols.time with
    | [] => Except.error LoadError.indexError
    | t0 :: _ =>
      Except.ok ⟨cols.time.map (fun x => (x - t0) / 3600000), cols.voltage, cols.current⟩

/-- `Ardustat.__init__(self, filepath, **kwargs)`: the keyword arguments are
accepted but never read, so loading always uses the class-attribute column
positions `(0, 5, 8)`. -/
def Ardustat.init (rows : List (List (Option ℚ))) (_kwargs : Kwargs) :
    Except LoadError Trace :=
  loadTrace defaultConfig rows

/-! ## Spec-side description of the scan

The specification describes the scan as: iterate `i` from `0` to `len-2`,
append sample `i` to the open segment, emit the segment as a CHARGE
half-cycle exactly when `current[i] < 0` and `current[i+1] > 0`, as a
DISCHARGE half-cycle exactly when `current[i] > 0` and `current[i+1] < 0`,
and reset the buffers after each emission.  The closed form below expresses
this: a half-cycle is emitted at exactly the boundary indices, and the
segment emitted at boundary `b` consists of the samples from the index just
after the previous boundary (`lastReset`) up to and including `b`. -/

/-- A charge boundary sits between samples `i` and `i+1`. -/
def chargeB (tr : Trace) (i : ℕ) : Bool :=
  decide (tr.current.getD (i + 1) 0 > 0 ∧ tr.current.getD i 0 < 0)

/-- A discharge boundary sits between samples `i` and `i+1`. -/
def dischargeB (tr : Trace) (i : ℕ) : Bool :=
  decide (tr.current.getD (i + 1) 0 < 0 ∧ tr.current.getD i 0 > 0)

/-- A boundary (of either kind) sits between samples `i` and `i+1`. -/
def boundaryB (tr : Trace) (i : ℕ) : Bool :=
  chargeB tr i || dischargeB tr i

/-- Start index of the segment open after `m` scan iterations: one past the
most recent boundary, or `0` if no boundary has fired yet. -/
def lastReset (tr : Trace) : ℕ → ℕ
  | 0 => 0
  | m + 1 => if boundaryB tr m then m + 1 else lastReset tr m

/-- The contiguous slice of a sequence covering indices `a ≤ i < b`. -/
def sliceIdx (l : List ℚ) (a b : ℕ) : List ℚ := (l.take b).drop a

/-- Time samples of the half-cycle emitted at boundary `b`. -/
def specSegTime (tr : Trace) (b : ℕ) : List ℚ :=
  sliceIdx tr.time (lastReset tr b) (b + 1)

/-- Voltage samples of the half-cycle emitted at boundary `b`. -/
def specSegVoltage (tr : Trace) (b : ℕ) : List ℚ :=
  sliceIdx tr.voltage (lastReset tr b) (b + 1)

/-- Current samples (absolute-valued on emission) of the half-cycle emitted
at boundary `b`. -/
def specSegCurrent (tr : Trace) (b : ℕ) : List ℚ :=
  (sliceIdx tr.current (lastReset tr b) (b + 1)).map (fun v => |v|)

/-- The charge-boundary indices among the first `m` scan iterations. -/
def chargeIdx (tr : Trace) (m : ℕ) : List ℕ := (List.range m).filter (chargeB tr)

/-- The discharge-boundary indices among the first `m` scan iterations. -/
def dischargeIdx (tr : Trace) (m : ℕ) : List ℕ := (List.range m).filter (dischargeB tr)

/-- The trapezoidal-integral formula of the specification, as a finite sum. -/
def trapzSpec (y x : List ℚ) : ℚ :=
  Finset.sum (Finset.range (y.length - 1))
    (fun j => (x.getD (j + 1) 0 - x.getD j 0) * (y.getD j 0 + y.getD (j + 1) 0) / 2)

lemma scanState_zero (tr : Trace) : scanState tr 0 = initState := rfl

lemma scanState_succ (tr : Trace) (m : ℕ) :
    scanState tr (m + 1) = scanStep tr (scanState tr m) m := by
  unfold scanState
  rw [List.range_succ, List.foldl_append, List.foldl_cons, List.foldl_nil]

lemma chargeB_eq_true (tr : Trace) (i : ℕ) :
    chargeB tr i = true ↔ (tr.current.getD (i + 1) 0 > 0 ∧ tr.current.getD i 0 < 0) := by
  simp [chargeB]

lemma dischargeB_eq_true (tr : Trace) (i : ℕ) :
    dischargeB tr i = true ↔ (tr.current.getD (i + 1) 0 < 0 ∧ tr.current.getD i 0 > 0) := by
  simp [dischargeB]

lemma lastReset_le (tr : Trace) : ∀ m, lastReset tr m ≤ m
  | 0 => le_refl 0
  | m + 1 => by
    unfold lastReset
    split
    · exact le_refl _
    · exact (lastReset_le tr m).trans (Nat.le_succ m)

lemma lastReset_succ_pos (tr : Trace) (m : ℕ) (h : boundaryB tr m = true) :
    lastReset tr (m + 1) = m + 1 := by
  simp [lastReset, h]

lemma lastReset_succ_neg (tr : Trace) (m : ℕ) (h : boundaryB tr m = false) :
    lastReset tr (m + 1) = lastReset tr m := by
  simp [lastReset, h]

lemma sliceIdx_self (l : List ℚ) (a : ℕ) : sliceIdx l a a = [] := by
  apply List.drop_eq_nil_of_le
  simp

lemma sliceIdx_snoc {l : List ℚ} {a m : ℕ} (ham : a ≤ m) (hml : m < l.length) :
    sliceIdx l a (m + 1) = sliceIdx l a m ++ [l.getD m 0] := by
  unfold sliceIdx
  rw [List.take_succ, List.getElem?_eq_getElem hml]
  rw [List.drop_append_of_le_length
    (by simp; exact ⟨ham, le_of_lt (lt_of_le_of_lt ham hml)⟩)]
  simp [List.getD_eq_getElem?_getD, List.getElem?_eq_getElem hml]

lemma chargeIdx_succ_pos (tr : Trace) (m : ℕ) (h : chargeB tr m = true) :
    chargeIdx tr (m + 1) = chargeIdx tr m ++ [m] := by
  simp [chargeIdx, List.range_succ, h]

lemma chargeIdx_succ_neg (tr : Trace) (m : ℕ) (h : chargeB tr m = false) :
    chargeIdx tr (m + 1) = chargeIdx tr m := by
  simp [chargeIdx, List.range_succ, h]

lemma dischargeIdx_succ_pos (tr : Trace) (m : ℕ) (h : dischargeB tr m = true) :
    dischargeIdx tr (m + 1) = dischargeIdx tr m ++ [m] := by
  simp [dischargeIdx, List.range_succ, h]

lemma dischargeIdx_succ_neg (tr : Trace) (m : ℕ) (h : dischargeB tr m = false) :
    dischargeIdx tr (m + 1) = dischargeIdx tr m := by
  simp [dischargeIdx, List.range_succ, h]

/-- Closed form of the scan state: after `m` iterations the emitted charge
(resp. discharge) half-cycles are exactly the segments closed at the charge
(resp. discharge) boundary indices below `m`, each spanning the samples from
just after the previous boundary through the boundary index, and the open
buffers hold the samples accumulated since the last boundary. -/
theorem scanState_char (tr : Trace) :
    ∀ m, m ≤ tr.time.length → m ≤ tr.voltage.length → m ≤ tr.current.length →
    scanState tr m =
      ⟨(chargeIdx tr m).map (specSegTime tr),
       (chargeIdx tr m).map (specSegVoltage tr),
       (chargeIdx tr m).map (specSegCurrent tr),
       (dischargeIdx tr m).map (specSegTime tr),
       (dischargeIdx tr m).map (specSegVoltage tr),
       (dischargeIdx tr m).map (specSegCurrent tr),
       sliceIdx tr.time (lastReset tr m) m,
       sliceIdx tr.voltage (lastReset tr m) m,
       sliceIdx tr.current (lastReset tr m) m⟩ := by
  intro m
  induction m with
  | zero => intro _ _ _; rfl
  | succ m ih =>
    intro ht hv hc
    have ht' : m < tr.time.length := Nat.lt_of_succ_le ht
    have hv' : m < tr.voltage.length := Nat.lt_of_succ_le hv
    have hc' : m < tr.current.length := Nat.lt_of_succ_le hc
    have hsnocT : sliceIdx tr.time (lastReset tr m) (m + 1) =
        sliceIdx tr.time (lastReset tr m) m ++ [tr.time.getD m 0] :=
      sliceIdx_snoc (lastReset_le tr m) ht'
    have hsnocV : sliceIdx tr.voltage (lastReset tr m) (m + 1) =
        sliceIdx tr.voltage (lastReset tr m) m ++ [tr.voltage.getD m 0] :=
      sliceIdx_snoc (lastReset_le tr m) hv'
    have hsnocC : sliceIdx tr.current (lastReset tr m) (m + 1) =
        sliceIdx tr.current (lastReset tr m) m ++ [tr.current.getD m 0] :=
      sliceIdx_snoc (lastReset_le tr m) hc'
    rw [scanState_succ tr m,
      ih (le_of_lt ht') (le_of_lt hv') (le_of_lt hc')]
    simp only [scanStep]
    split_ifs with h1 h2
    · have hcb : chargeB tr m = true := by
        simpa [chargeB] using h1
      have hdb : dischargeB tr m = false := by
        have : ¬ (tr.current.getD (m + 1) 0 < 0 ∧ tr.current.getD m 0 > 0) :=
          fun hct => absurd h1.1 (asymm hct.1)
        simpa [dischargeB] using this
      have hbb : boundaryB tr m = true := by simp [boundaryB, hcb]
      rw [chargeIdx_succ_pos tr m hcb, dischargeIdx_succ_neg tr m hdb,
        lastReset_succ_pos tr m hbb]
      simp [specSegTime, specSegVoltage, specSegCurrent, hsnocT, hsnocV, hsnocC,
        sliceIdx_self]
    · have hcb : chargeB tr m = false := by
        simpa [chargeB] using h1
      have hdb : dischargeB tr m = true := by
        simpa [dischargeB] using h2
      have hbb : boundaryB tr m = true := by simp [boundaryB, hdb]
      rw [chargeIdx_succ_neg tr m hcb, dischargeIdx_succ_pos tr m hdb,
        lastReset_succ_pos tr m hbb]
      simp [specSegTime, specSegVoltage, specSegCurrent, hsnocT, hsnocV, hsnocC,
        sliceIdx_self]
    · have hcb : chargeB tr m = false := by
        simpa [chargeB] using h1
      have hdb : dischargeB tr m = false := by
        simpa [dischargeB] using h2
      have hbb : boundaryB tr m = false := by simp [boundaryB, hcb, hdb]
      rw [chargeIdx_succ_neg tr m hcb, dischargeIdx_succ_neg tr m hdb,
        lastReset_succ_neg tr m hbb]
      simp [hsnocT, hsnocV, hsnocC]

/-- The scan state reached by `get_cycle_data` on a trace with aligned
sequences, in closed form. -/
lemma scanState_final (tr : Trace) (ht : tr.time.length = tr.current.length)
    (hv : tr.voltage.length = tr.current.length) :
    scanState tr (tr.current.length - 1) =
      ⟨(chargeIdx tr (tr.current.length - 1)).map (specSegTime tr),
       (chargeIdx tr (tr.current.length - 1)).map (specSegVoltage tr),
       (chargeIdx tr (tr.current.length - 1)).map (specSegCurrent tr),
       (dischargeIdx tr (tr.current.length - 1)).map (specSegTime tr),
       (dischargeIdx tr (tr.current.length - 1)).map (specSegVoltage tr),
       (dischargeIdx tr (tr.current.length - 1)).map (specSegCurrent tr),
       sliceIdx tr.time (lastReset tr (tr.current.length - 1)) (tr.current.length - 1),
       sliceIdx tr.voltage (lastReset tr (tr.current.length - 1)) (tr.current.length - 1),
       sliceIdx tr.current (lastReset tr (tr.current.length - 1)) (tr.current.length - 1)⟩ :=
  scanState_char tr (tr.current.length - 1) (by omega) (by omega) (Nat.sub_le _ _)

lemma get_cycle_data_scan (tr : Trace) :
    (Ardustat.get_cycle_data tr).time_cycles_raw_charge =
        (scanState tr (tr.current.length - 1)).time_cycles_raw_charge ∧
      (Ardustat.get_cycle_data tr).voltage_cycles_raw_charge =
        (scanState tr (tr.current.length - 1)).voltage_cycles_raw_charge ∧
      (Ardustat.get_cycle_data tr).current_cycles_raw_charge =
        (scanState tr (tr.current.length - 1)).current_cycles_raw_charge ∧
      (Ardustat.get_cycle_data tr).time_cycles_raw_discharge =
        (scanState tr (tr.current.length - 1)).time_cycles_raw_discharge ∧
      (Ardustat.get_cycle_data tr).voltage_cycles_raw_discharge =
        (scanState tr (tr.current.length - 1)).voltage_cycles_raw_discharge ∧
      (Ardustat.get_cycle_data tr).current_cycles_raw_discharge =
        (scanState tr (tr.current.length - 1)).current_cycles_raw_discharge :=
  ⟨rfl, rfl, rfl, rfl, rfl, rfl⟩

lemma get_cycle_data_charge_capacity (tr : Trace) :
    (Ardustat.get_cycle_data tr).charge_capacity =
      (List.range (scanState tr (tr.current.length - 1)).current_cycles_raw_charge.length).map
        (fun index =>
          trapz ((scanState tr (tr.current.length - 1)).current_cycles_raw_charge.getD index [])
            ((scanState tr (tr.current.length - 1)).time_cycles_raw_charge.getD index [])) := rfl

lemma get_cycle_data_charge_power (tr : Trace) :
    (Ardustat.get_cycle_data tr).charge_power =
      (List.range (scanState tr (tr.current.length - 1)).current_cycles_raw_charge.length).map
        (fun index =>
          trapz ((List.range
              ((scanState tr (tr.current.length - 1)).current_cycles_raw_charge.getD index
                []).length).map
            (fun i =>
              ((scanState tr (tr.current.length - 1)).voltage_cycles_raw_charge.getD index
                  []).getD i 0 *
                ((scanState tr (tr.current.length - 1)).current_cycles_raw_charge.getD index
                  []).getD i 0))
            ((scanState tr (tr.current.length - 1)).time_cycles_raw_charge.getD index [])) := rfl

lemma get_cycle_data_discharge_capacity (tr : Trace) :
    (Ardustat.get_cycle_data tr).discharge_capacity =
      (List.range
          (scanState tr (tr.current.length - 1)).current_cycles_raw_discharge.length).map
        (fun index =>
          trapz
            ((scanState tr (tr.current.length - 1)).current_cycles_raw_discharge.getD index [])
            ((scanState tr (tr.current.length - 1)).time_cycles_raw_discharge.getD index [])) :=
  rfl

lemma get_cycle_data_discharge_power (tr : Trace) :
    (Ardustat.get_cycle_data tr).discharge_power =
      (List.range
          (scanState tr (tr.current.length - 1)).current_cycles_raw_discharge.length).map
        (fun index =>
          trapz ((List.range
              ((scanState tr (tr.current.length - 1)).current_cycles_raw_discharge.getD index
                []).length).map
            (fun i =>
              ((scanState tr (tr.current.length - 1)).voltage_cycles_raw_discharge.getD index
                  []).getD i 0 *
                ((scanState tr (tr.current.length - 1)).current_cycles_raw_discharge.getD index
                  []).getD i 0))
            ((scanState tr (tr.current.length - 1)).time_cycles_raw_discharge.getD index [])) :=
  rfl

lemma foldl_range_add (f : ℕ → ℚ) (n : ℕ) (a : ℚ) :
    (List.range n).foldl (fun acc k => acc + f k) a = a + Finset.sum (Finset.range n) f := by
  induction n with
  | zero => simp
  | succ n ihn =>
    rw [List.range_succ, List.foldl_append, List.foldl_cons, List.foldl_nil,
      Finset.sum_range_succ, ihn]
    ring

/-- `numpy.trapz` computes exactly the trapezoidal sum of the specification. -/
lemma trapz_eq_trapzSpec (y x : List ℚ) : trapz y x = trapzSpec y x := by
  unfold trapz trapzSpec
  rw [foldl_range_add]
  ring

/-- Degenerate trapezoidal integration (fewer than two samples) is the empty
sum, `0`. -/
lemma trapz_short (y x : List ℚ) (h : y.length < 2) : trapz y x = 0 := by
  unfold trapz
  have h0 : y.length - 1 = 0 := by omega
  rw [h0]
  rfl

lemma getD_eq_get (l : List ℚ) (j : ℕ) (h : j < l.length) :
    l.getD j 0 = l.get ⟨j, h⟩ := by
  rw [List.getD_eq_getElem?_getD, List.getElem?_eq_getElem h]
  simp

lemma trapz_nonneg (y x : List ℚ) (hlen : x.length = y.length)
    (hx : x.Pairwise (· ≤ ·)) (hy : ∀ k, 0 ≤ y.getD k 0) : 0 ≤ trapz y x := by
  rw [trapz_eq_trapzSpec]
  apply Finset.sum_nonneg
  intro j hj
  rw [Finset.mem_range] at hj
  have hj1 : j + 1 < y.length := by omega
  have hjx : j < x.length := by omega
  have hj1x : j + 1 < x.length := by omega
  have hxle : x.getD j 0 ≤ x.getD (j + 1) 0 := by
    rw [getD_eq_get x j hjx, getD_eq_get x (j + 1) hj1x]
    exact List.pairwise_iff_get.mp hx ⟨j, hjx⟩ ⟨j + 1, hj1x⟩ (by simp)
  have h2 : (0:ℚ) ≤ x.getD (j + 1) 0 - x.getD j 0 := by linarith
  have h3 : (0:ℚ) ≤ y.getD j 0 + y.getD (j + 1) 0 := add_nonneg (hy j) (hy (j + 1))
  positivity

lemma zipWith_mul_eq_map_range (v c : List ℚ) (h : v.length = c.length) :
    List.zipWith (fun a b => a * b) v c =
      (List.range c.length).map (fun i => v.getD i 0 * c.getD i 0) := by
  apply List.ext_getElem
  · simp [h]
  · intro i h1 h2
    have hiv : i < v.length := by simp at h1; omega
    have hic : i < c.length := by simp at h1; omega
    simp only [List.getElem_zipWith, List.getElem_map, List.getElem_range]
    rw [getD_eq_get v i hiv, getD_eq_get c i hic]
    simp

/-- The six per-cycle lists produced by `get_cycle_data` on an aligned trace,
in closed form: one segment per boundary index, in chronological order. -/
lemma get_cycle_data_char (tr : Trace) (ht : tr.time.length = tr.current.length)
    (hv : tr.voltage.length = tr.current.length) :
    (Ardustat.get_cycle_data tr).time_cycles_raw_charge =
        (chargeIdx tr (tr.current.length - 1)).map (specSegTime tr) ∧
      (Ardustat.get_cycle_data tr).voltage_cycles_raw_charge =
        (chargeIdx tr (tr.current.length - 1)).map (specSegVoltage tr) ∧
      (Ardustat.get_cycle_data tr).current_cycles_raw_charge =
        (chargeIdx tr (tr.current.length - 1)).map (specSegCurrent tr) ∧
      (Ardustat.get_cycle_data tr).time_cycles_raw_discharge =
        (dischargeIdx tr (tr.current.length - 1)).map (specSegTime tr) ∧
      (Ardustat.get_cycle_data tr).voltage_cycles_raw_discharge =
        (dischargeIdx tr (tr.current.length - 1)).map (specSegVoltage tr) ∧
      (Ardustat.get_cycle_data tr).current_cycles_raw_discharge =
        (dischargeIdx tr (tr.current.length - 1)).map (specSegCurrent tr) := by
  obtain ⟨e1, e2, e3, e4, e5, e6⟩ := get_cycle_data_scan tr
  rw [e1, e2, e3, e4, e5, e6, scanState_final tr ht hv]
  exact ⟨rfl, rfl, rfl, rfl, rfl, rfl⟩

lemma getD_map_get (L : List ℕ) (g : ℕ → List ℚ) (k : ℕ) (h : k < L.length) :
    (L.map g).getD k [] = g (L.get ⟨k, h⟩) := by
  rw [List.getD_eq_getElem?_getD, List.getElem?_map, List.getElem?_eq_getElem h]
  simp

lemma getD_map_range (f : ℕ → ℚ) (n k : ℕ) (h : k < n) :
    ((List.range n).map f).getD k 0 = f k := by
  rw [List.getD_eq_getElem?_getD, List.getElem?_map, List.getElem?_range h]
  simp

lemma sliceIdx_sublist (l : List ℚ) (a b : ℕ) : (sliceIdx l a b).Sublist l :=
  (List.drop_sublist a (l.take b)).trans (List.take_sublist b l)

lemma sliceIdx_length (l : List ℚ) (a b : ℕ) :
    (sliceIdx l a b).length = min b l.length - a := by
  simp [sliceIdx]

lemma specSeg_len_tv (tr : Trace) (hv : tr.voltage.length = tr.time.length) (b : ℕ) :
    (specSegTime tr b).length = (specSegVoltage tr b).length := by
  simp [specSegTime, specSegVoltage, sliceIdx_length, hv]

lemma specSeg_len_tc (tr : Trace) (hc : tr.current.length = tr.time.length) (b : ℕ) :
    (specSegTime tr b).length = (specSegCurrent tr b).length := by
  simp [specSegTime, specSegCurrent, sliceIdx_length, hc]

lemma specSeg_len_pos (tr : Trace) (b : ℕ) (hb : b + 1 ≤ tr.time.length) :
    0 < (specSegTime tr b).length := by
  rw [specSegTime, sliceIdx_length]
  have := lastReset_le tr b
  omega

lemma chargeIdx_mem (tr : Trace) (m b : ℕ) (h : b ∈ chargeIdx tr m) :
    b < m ∧ chargeB tr b = true := by
  rw [chargeIdx, List.mem_filter, List.mem_range] at h
  exact h

lemma dischargeIdx_mem (tr : Trace) (m b : ℕ) (h : b ∈ dischargeIdx tr m) :
    b < m ∧ dischargeB tr b = true := by
  rw [dischargeIdx, List.mem_filter, List.mem_range] at h
  exact h

lemma getD_nonneg_of_forall (y : List ℚ) (h : ∀ v ∈ y, 0 ≤ v) : ∀ j, 0 ≤ y.getD j 0 := by
  intro j
  by_cases hj : j < y.length
  · rw [getD_eq_get y j hj]
    exact h _ (List.get_mem y j hj)
  · rw [List.getD_eq_default]
    omega

lemma lastReset_eq_zero (tr : Trace) :
    ∀ b, (∀ j, j < b → boundaryB tr j = false) → lastReset tr b = 0
  | 0, _ => rfl
  | b + 1, h => by
    rw [lastReset_succ_neg tr b (h b (Nat.lt_succ_self b))]
    exact lastReset_eq_zero tr b (fun j hj => h j (hj.trans (Nat.lt_succ_self b)))

/-- Claim C1: on a trace with aligned time/voltage/current sequences the scan
visits indices `0 ≤ i ≤ len-2`, appending sample `i` to the open segment, and
emits the open segment as a CHARGE half-cycle exactly at the indices with
`current[i] < 0` and `current[i+1] > 0` and as a DISCHARGE half-cycle exactly
at the indices with `current[i] > 0` and `current[i+1] < 0`, resetting the
buffers after each emission (each emitted segment spans the samples from just
after the previous boundary through the boundary index); both comparisons
are strict, so the current sequence `[1, 0, -1]` produces no boundary. -/
theorem claim_C1 (tr : Trace)
    (ht : tr.time.length = tr.current.length)
    (hv : tr.voltage.length = tr.current.length) :
    ((Ardustat.get_cycle_data tr).time_cycles_raw_charge =
        (chargeIdx tr (tr.current.length - 1)).map (specSegTime tr) ∧
      (Ardustat.get_cycle_data tr).voltage_cycles_raw_charge =
        (chargeIdx tr (tr.current.length - 1)).map (specSegVoltage tr) ∧
      (Ardustat.get_cycle_data tr).current_cycles_raw_charge =
        (chargeIdx tr (tr.current.length - 1)).map (specSegCurrent tr) ∧
      (Ardustat.get_cycle_data tr).time_cycles_raw_discharge =
        (dischargeIdx tr (tr.current.length - 1)).map (specSegTime tr) ∧
      (Ardustat.get_cycle_data tr).voltage_cycles_raw_discharge =
        (dischargeIdx tr (tr.current.length - 1)).map (specSegVoltage tr) ∧
      (Ardustat.get_cycle_data tr).current_cycles_raw_discharge =
        (dischargeIdx tr (tr.current.length - 1)).map (specSegCurrent tr)) ∧
    Ardustat.get_cycle_data ⟨[0, 1, 2], [4, 4, 4], [1, 0, -1]⟩ = emptyCycleData :=
  ⟨get_cycle_data_char tr ht hv, by decide⟩

/-- Witness for C1: the hypotheses hold and a conclusion is obtained at a
concrete aligned trace. -/
theorem claim_C1_witness :
    ((⟨[0, 1, 2, 3], [7, 7, 7, 7], [1, 1, -1, -1]⟩ : Trace).time.length =
        (⟨[0, 1, 2, 3], [7, 7, 7, 7], [1, 1, -1, -1]⟩ : Trace).current.length) ∧
      (Ardustat.get_cycle_data
          ⟨[0, 1, 2, 3], [7, 7, 7, 7], [1, 1, -1, -1]⟩).time_cycles_raw_discharge =
        (dischargeIdx ⟨[0, 1, 2, 3], [7, 7, 7, 7], [1, 1, -1, -1]⟩
            ((⟨[0, 1, 2, 3], [7, 7, 7, 7], [1, 1, -1, -1]⟩ : Trace).current.length - 1)).map
          (specSegTime ⟨[0, 1, 2, 3], [7, 7, 7, 7], [1, 1, -1, -1]⟩) :=
  ⟨rfl, (claim_C1 _ rfl rfl).1.2.2.2.1⟩

lemma scan_current_nonneg (tr : Trace) (l : List ℕ) :
    ∀ st : ScanState,
      (∀ seg ∈ st.current_cycles_raw_charge, ∀ v ∈ seg, 0 ≤ v) →
      (∀ seg ∈ st.current_cycles_raw_discharge, ∀ v ∈ seg, 0 ≤ v) →
      (∀ seg ∈ (l.foldl (scanStep tr) st).current_cycles_raw_charge, ∀ v ∈ seg, 0 ≤ v) ∧
      (∀ seg ∈ (l.foldl (scanStep tr) st).current_cycles_raw_discharge, ∀ v ∈ seg, 0 ≤ v) := by
  induction l with
  | nil => intro st hc hd; exact ⟨hc, hd⟩
  | cons i l ih =>
    intro st hc hd
    rw [List.foldl_cons]
    apply ih
    · intro seg hseg
      simp only [scanStep] at hseg
      split_ifs at hseg
      · rcases List.mem_append.mp hseg with h | h
        · exact hc seg h
        · intro v hv
          rw [List.mem_singleton.mp h] at hv
          obtain ⟨w, _, rfl⟩ := List.mem_map.mp hv
          exact abs_nonneg w
      · exact hc seg hseg
      · exact hc seg hseg
    · intro seg hseg
      simp only [scanStep] at hseg
      split_ifs at hseg
      · exact hd seg hseg
      · rcases List.mem_append.mp hseg with h | h
        · exact hd seg h
        · intro v hv
          rw [List.mem_singleton.mp h] at hv
          obtain ⟨w, _, rfl⟩ := List.mem_map.mp hv
          exact abs_nonneg w
      · exact hd seg hseg

/-- Claim C4: every value stored in the current sequence of an emitted
half-cycle (charge or discharge) is greater than or equal to zero, because
the absolute value is applied to the current buffer on emission. -/
theorem claim_C4 (tr : Trace) (seg : List ℚ)
    (hseg : seg ∈ (Ardustat.get_cycle_data tr).current_cycles_raw_charge ∨
      seg ∈ (Ardustat.get_cycle_data tr).current_cycles_raw_discharge) :
    ∀ v ∈ seg, 0 ≤ v := by
  have h := scan_current_nonneg tr (List.range (tr.current.length - 1)) initState
    (by intro seg h; simp [initState] at h) (by intro seg h; simp [initState] at h)
  rcases hseg with h1 | h1
  · exact h.1 seg h1
  · exact h.2 seg h1

/-- Witness for C4: a concrete emitted half-cycle with non-negative stored
current. -/
theorem claim_C4_witness :
    (([1] : List ℚ) ∈
        (Ardustat.get_cycle_data ⟨[0, 1], [7, 7], [-1, 1]⟩).current_cycles_raw_charge ∨
      ([1] : List ℚ) ∈
        (Ardustat.get_cycle_data ⟨[0, 1], [7, 7], [-1, 1]⟩).current_cycles_raw_discharge) ∧
      ∀ v ∈ ([1] : List ℚ), 0 ≤ v := by
  have hrec : Ardustat.get_cycle_data ⟨[0, 1], [7, 7], [-1, 1]⟩ =
      ⟨[[0]], [[7]], [[1]], [], [], [], [0], [0], [], []⟩ := by
    norm_num [Ardustat.get_cycle_data, scanStep, initState, trapz, List.range_succ]
  have hmem : ([1] : List ℚ) ∈
      (Ardustat.get_cycle_data ⟨[0, 1], [7, 7], [-1, 1]⟩).current_cycles_raw_charge := by
    rw [hrec]
    simp
  exact ⟨Or.inl hmem, claim_C4 _ [1] (Or.inl hmem)⟩

/-- Claim C5, amended: when the trace has fewer than 2 samples the analysis
does not fail; the scan loop body never runs and `get_cycle_data` returns
empty outputs (no half-cycles, all four derived sequences empty). -/
theorem claim_C5 (tr : Trace) (h : tr.current.length < 2) :
    Ardustat.get_cycle_data tr = emptyCycleData := by
  have h0 : tr.current.length - 1 = 0 := by omega
  simp [Ardustat.get_cycle_data, h0, initState, emptyCycleData]

/-- Counterexample to C5 as stated: on a one-sample trace the analysis
completes normally and returns the empty result, rather than failing with
`InsufficientDataError` (no such error exists in the code). -/
theorem claim_C5_counterexample :
    Ardustat.get_cycle_data ⟨[0], [3], [5]⟩ = emptyCycleData := by decide

/-- Witness for the amended C5 at a concrete empty trace. -/
theorem claim_C5_witness :
    (⟨[], [], []⟩ : Trace).current.length < 2 ∧
      Ardustat.get_cycle_data ⟨[], [], []⟩ = emptyCycleData :=
  ⟨by decide, claim_C5 ⟨[], [], []⟩ (by decide)⟩

/-- Claim C3, amended: data remaining in the open buffers when the scan ends
— the final partial segment after the last boundary, and in particular the
last sample (index `len-1`), which is never appended — is discarded: every
emitted half-cycle is contained in the first `len-1` samples, ending at a
boundary.  Data before the *first* boundary, however, is NOT discarded: it
is emitted as part of the first half-cycle.  For the current sequence
`[1, 1, -1, -1]` exactly one half-cycle is emitted, covering indices 0–1. -/
theorem claim_C3 (tr : Trace)
    (ht : tr.time.length = tr.current.length)
    (hv : tr.voltage.length = tr.current.length) :
    (∀ seg, (seg ∈ (Ardustat.get_cycle_data tr).time_cycles_raw_charge ∨
        seg ∈ (Ardustat.get_cycle_data tr).time_cycles_raw_discharge) →
      seg.Sublist (tr.time.take (tr.current.length - 1))) ∧
    (∀ b, b < tr.current.length - 1 → boundaryB tr b = true →
      (∀ j, j < b → boundaryB tr j = false) →
      (sliceIdx tr.time 0 (b + 1) ∈ (Ardustat.get_cycle_data tr).time_cycles_raw_charge ∨
        sliceIdx tr.time 0 (b + 1) ∈ (Ardustat.get_cycle_data tr).time_cycles_raw_discharge)) ∧
    Ardustat.get_cycle_data ⟨[0, 1, 2, 3], [7, 7, 7, 7], [1, 1, -1, -1]⟩ =
      ⟨[], [], [], [[0, 1]], [[7, 7]], [[1, 1]], [], [], [1], [7]⟩ := by
  obtain ⟨e1, e2, e3, e4, e5, e6⟩ := get_cycle_data_char tr ht hv
  refine ⟨?_, ?_, ?_⟩
  · intro seg hseg
    have hb : ∃ b, b < tr.current.length - 1 ∧ seg = specSegTime tr b := by
      rcases hseg with h | h
      · rw [e1] at h
        obtain ⟨b, hbL, hbe⟩ := List.mem_map.mp h
        exact ⟨b, (chargeIdx_mem tr _ b hbL).1, hbe.symm⟩
      · rw [e4] at h
        obtain ⟨b, hbL, hbe⟩ := List.mem_map.mp h
        exact ⟨b, (dischargeIdx_mem tr _ b hbL).1, hbe.symm⟩
    obtain ⟨b, hblt, rfl⟩ := hb
    rw [specSegTime, sliceIdx]
    have htake : tr.time.take (b + 1) = (tr.time.take (tr.current.length - 1)).take (b + 1) := by
      rw [List.take_take, Nat.min_eq_left (by omega)]
    rw [htake]
    exact (List.drop_sublist _ _).trans (List.take_sublist _ _)
  · intro b hblt hbnd hfirst
    have hz : lastReset tr b = 0 := lastReset_eq_zero tr b hfirst
    simp only [boundaryB, Bool.or_eq_true] at hbnd
    rcases hbnd with hcb | hdb
    · left
      rw [e1]
      apply List.mem_map.mpr
      refine ⟨b, ?_, ?_⟩
      · rw [chargeIdx, List.mem_filter, List.mem_range]
        exact ⟨hblt, hcb⟩
      · rw [specSegTime, hz]
    · right
      rw [e4]
      apply List.mem_map.mpr
      refine ⟨b, ?_, ?_⟩
      · rw [dischargeIdx, List.mem_filter, List.mem_range]
        exact ⟨hblt, hdb⟩
      · rw [specSegTime, hz]
  · norm_num [Ardustat.get_cycle_data, scanStep, initState, trapz, List.range_succ]

/-- Counterexample to C3 as stated: for current `[1, 1, -1, -1]` the first
detected boundary is between indices 1 and 2 (no boundary at index 0), yet
the time samples of indices 0 and 1 — data before the first boundary in a
trace that starts mid-segment — appear in the emitted discharge half-cycle,
so they are not discarded. -/
theorem claim_C3_counterexample :
    boundaryB ⟨[0, 1, 2, 3], [7, 7, 7, 7], [1, 1, -1, -1]⟩ 0 = false ∧
      boundaryB ⟨[0, 1, 2, 3], [7, 7, 7, 7], [1, 1, -1, -1]⟩ 1 = true ∧
      [0, 1] ∈ (Ardustat.get_cycle_data
        ⟨[0, 1, 2, 3], [7, 7, 7, 7], [1, 1, -1, -1]⟩).time_cycles_raw_discharge := by
  refine ⟨by decide, by decide, ?_⟩
  have hrec : Ardustat.get_cycle_data ⟨[0, 1, 2, 3], [7, 7, 7, 7], [1, 1, -1, -1]⟩ =
      ⟨[], [], [], [[0, 1]], [[7, 7]], [[1, 1]], [], [], [1], [7]⟩ := by
    norm_num [Ardustat.get_cycle_data, scanStep, initState, trapz, List.range_succ]
  rw [hrec]
  simp

/-- Witness for the amended C3 at a concrete aligned trace. -/
theorem claim_C3_witness :
    ((⟨[0, 1, 2, 3], [7, 7, 7, 7], [1, 1, -1, -1]⟩ : Trace).time.length =
        (⟨[0, 1, 2, 3], [7, 7, 7, 7], [1, 1, -1, -1]⟩ : Trace).current.length) ∧
      ∀ seg,
        (seg ∈ (Ardustat.get_cycle_data
            ⟨[0, 1, 2, 3], [7, 7, 7, 7], [1, 1, -1, -1]⟩).time_cycles_raw_charge ∨
          seg ∈ (Ardustat.get_cycle_data
            ⟨[0, 1, 2, 3], [7, 7, 7, 7], [1, 1, -1, -1]⟩).time_cycles_raw_discharge) →
        seg.Sublist ((⟨[0, 1, 2, 3], [7, 7, 7, 7], [1, 1, -1, -1]⟩ : Trace).time.take
          ((⟨[0, 1, 2, 3], [7, 7, 7, 7], [1, 1, -1, -1]⟩ : Trace).current.length - 1)) :=
  ⟨rfl, (claim_C3 _ rfl rfl).1⟩

lemma scan_len_charge (tr : Trace) (ht : tr.time.length = tr.current.length)
    (hv : tr.voltage.length = tr.current.length) :
    (scanState tr (tr.current.length - 1)).current_cycles_raw_charge.length =
      (chargeIdx tr (tr.current.length - 1)).length := by
  rw [scanState_final tr ht hv]
  simp

lemma scan_len_discharge (tr : Trace) (ht : tr.time.length = tr.current.length)
    (hv : tr.voltage.length = tr.current.length) :
    (scanState tr (tr.current.length - 1)).current_cycles_raw_discharge.length =
      (dischargeIdx tr (tr.current.length - 1)).length := by
  rw [scanState_final tr ht hv]
  simp

lemma scan_getD_charge (tr : Trace) (ht : tr.time.length = tr.current.length)
    (hv : tr.voltage.length = tr.current.length) (k : ℕ)
    (hk : k < (chargeIdx tr (tr.current.length - 1)).length) :
    (scanState tr (tr.current.length - 1)).time_cycles_raw_charge.getD k [] =
        specSegTime tr ((chargeIdx tr (tr.current.length - 1)).get ⟨k, hk⟩) ∧
      (scanState tr (tr.current.length - 1)).voltage_cycles_raw_charge.getD k [] =
        specSegVoltage tr ((chargeIdx tr (tr.current.length - 1)).get ⟨k, hk⟩) ∧
      (scanState tr (tr.current.length - 1)).current_cycles_raw_charge.getD k [] =
        specSegCurrent tr ((chargeIdx tr (tr.current.length - 1)).get ⟨k, hk⟩) := by
  rw [scanState_final tr ht hv]
  exact ⟨getD_map_get _ _ k hk, getD_map_get _ _ k hk, getD_map_get _ _ k hk⟩

lemma scan_getD_discharge (tr : Trace) (ht : tr.time.length = tr.current.length)
    (hv : tr.voltage.length = tr.current.length) (k : ℕ)
    (hk : k < (dischargeIdx tr (tr.current.length - 1)).length) :
    (scanState tr (tr.current.length - 1)).time_cycles_raw_discharge.getD k [] =
        specSegTime tr ((dischargeIdx tr (tr.current.length - 1)).get ⟨k, hk⟩) ∧
      (scanState tr (tr.current.length - 1)).voltage_cycles_raw_discharge.getD k [] =
        specSegVoltage tr ((dischargeIdx tr (tr.current.length - 1)).get ⟨k, hk⟩) ∧
      (scanState tr (tr.current.length - 1)).current_cycles_raw_discharge.getD k [] =
        specSegCurrent tr ((dischargeIdx tr (tr.current.length - 1)).get ⟨k, hk⟩) := by
  rw [scanState_final tr ht hv]
  exact ⟨getD_map_get _ _ k hk, getD_map_get _ _ k hk, getD_map_get _ _ k hk⟩

/-- Claim C8: on an aligned trace every emitted half-cycle has time, voltage
and current sequences of equal, non-zero length. -/
theorem claim_C8 (tr : Trace)
    (ht : tr.time.length = tr.current.length)
    (hv : tr.voltage.length = tr.current.length) :
    (∀ k, k < (Ardustat.get_cycle_data tr).time_cycles_raw_charge.length →
      ((Ardustat.get_cycle_data tr).time_cycles_raw_charge.getD k []).length =
          ((Ardustat.get_cycle_data tr).voltage_cycles_raw_charge.getD k []).length ∧
        ((Ardustat.get_cycle_data tr).time_cycles_raw_charge.getD k []).length =
          ((Ardustat.get_cycle_data tr).current_cycles_raw_charge.getD k []).length ∧
        0 < ((Ardustat.get_cycle_data tr).time_cycles_raw_charge.getD k []).length) ∧
    (∀ k, k < (Ardustat.get_cycle_data tr).time_cycles_raw_discharge.length →
      ((Ardustat.get_cycle_data tr).time_cycles_raw_discharge.getD k []).length =
          ((Ardustat.get_cycle_data tr).voltage_cycles_raw_discharge.getD k []).length ∧
        ((Ardustat.get_cycle_data tr).time_cycles_raw_discharge.getD k []).length =
          ((Ardustat.get_cycle_data tr).current_cycles_raw_discharge.getD k []).length ∧
        0 < ((Ardustat.get_cycle_data tr).time_cycles_raw_discharge.getD k []).length) := by
  obtain ⟨e1, e2, e3, e4, e5, e6⟩ := get_cycle_data_char tr ht hv
  constructor
  · intro k hk
    rw [e1, List.length_map] at hk
    rw [e1, e2, e3, getD_map_get _ _ k hk, getD_map_get _ _ k hk, getD_map_get _ _ k hk]
    have hbmem : (chargeIdx tr (tr.current.length - 1)).get ⟨k, hk⟩ ∈
        chargeIdx tr (tr.current.length - 1) := List.get_mem _ k hk
    have hblt := (chargeIdx_mem tr _ _ hbmem).1
    exact ⟨specSeg_len_tv tr (by omega) _, specSeg_len_tc tr (by omega) _,
      specSeg_len_pos tr _ (by omega)⟩
  · intro k hk
    rw [e4, List.length_map] at hk
    rw [e4, e5, e6, getD_map_get _ _ k hk, getD_map_get _ _ k hk, getD_map_get _ _ k hk]
    have hbmem : (dischargeIdx tr (tr.current.length - 1)).get ⟨k, hk⟩ ∈
        dischargeIdx tr (tr.current.length - 1) := List.get_mem _ k hk
    have hblt := (dischargeIdx_mem tr _ _ hbmem).1
    exact ⟨specSeg_len_tv tr (by omega) _, specSeg_len_tc tr (by omega) _,
      specSeg_len_pos tr _ (by omega)⟩

/-- Witness for C8 at a concrete aligned trace. -/
theorem claim_C8_witness :
    ((⟨[0, 1, 2, 3], [7, 7, 7, 7], [1, 1, -1, -1]⟩ : Trace).time.length =
        (⟨[0, 1, 2, 3], [7, 7, 7, 7], [1, 1, -1, -1]⟩ : Trace).current.length) ∧
      ∀ k, k < (Ardustat.get_cycle_data
          ⟨[0, 1, 2, 3], [7, 7, 7, 7], [1, 1, -1, -1]⟩).time_cycles_raw_discharge.length →
        ((Ardustat.get_cycle_data
            ⟨[0, 1, 2, 3], [7, 7, 7, 7], [1, 1, -1, -1]⟩).time_cycles_raw_discharge.getD k
          []).length =
            ((Ardustat.get_cycle_data
              ⟨[0, 1, 2, 3], [7, 7, 7, 7], [1, 1, -1, -1]⟩).voltage_cycles_raw_discharge.getD k
            []).length ∧
          ((Ardustat.get_cycle_data
            ⟨[0, 1, 2, 3], [7, 7, 7, 7], [1, 1, -1, -1]⟩).time_cycles_raw_discharge.getD k
          []).length =
            ((Ardustat.get_cycle_data
              ⟨[0, 1, 2, 3], [7, 7, 7, 7], [1, 1, -1, -1]⟩).current_cycles_raw_discharge.getD k
            []).length ∧
          0 < ((Ardustat.get_cycle_data
            ⟨[0, 1, 2, 3], [7, 7, 7, 7], [1, 1, -1, -1]⟩).time_cycles_raw_discharge.getD k
          []).length :=
  ⟨rfl, (claim_C8 _ rfl rfl).2⟩

/-- Claim C2: `charge_capacity[k]` is the trapezoidal integral of the k-th
emitted CHARGE half-cycle's stored (absolute-valued) current against its
time, `charge_power[k]` is the trapezoidal integral of the pointwise product
`voltage[j]*current[j]` of that same half-cycle against its time, and
likewise for the k-th DISCHARGE half-cycle, all indexed in chronological
emission order; a half-cycle with fewer than 2 samples integrates to 0. -/
theorem claim_C2 (tr : Trace)
    (ht : tr.time.length = tr.current.length)
    (hv : tr.voltage.length = tr.current.length) :
    ∀ k,
      (k < (Ardustat.get_cycle_data tr).charge_capacity.length →
        (Ardustat.get_cycle_data tr).charge_capacity.getD k 0 =
            trapzSpec ((Ardustat.get_cycle_data tr).current_cycles_raw_charge.getD k [])
              ((Ardustat.get_cycle_data tr).time_cycles_raw_charge.getD k []) ∧
          (Ardustat.get_cycle_data tr).charge_power.getD k 0 =
            trapzSpec
              (List.zipWith (fun a b => a * b)
                ((Ardustat.get_cycle_data tr).voltage_cycles_raw_charge.getD k [])
                ((Ardustat.get_cycle_data tr).current_cycles_raw_charge.getD k []))
              ((Ardustat.get_cycle_data tr).time_cycles_raw_charge.getD k []) ∧
          (((Ardustat.get_cycle_data tr).current_cycles_raw_charge.getD k []).length < 2 →
            (Ardustat.get_cycle_data tr).charge_capacity.getD k 0 = 0)) ∧
      (k < (Ardustat.get_cycle_data tr).discharge_capacity.length →
        (Ardustat.get_cycle_data tr).discharge_capacity.getD k 0 =
            trapzSpec ((Ardustat.get_cycle_data tr).current_cycles_raw_discharge.getD k [])
              ((Ardustat.get_cycle_data tr).time_cycles_raw_discharge.getD k []) ∧
          (Ardustat.get_cycle_data tr).discharge_power.getD k 0 =
            trapzSpec
              (List.zipWith (fun a b => a * b)
                ((Ardustat.get_cycle_data tr).voltage_cycles_raw_discharge.getD k [])
                ((Ardustat.get_cycle_data tr).current_cycles_raw_discharge.getD k []))
              ((Ardustat.get_cycle_data tr).time_cycles_raw_discharge.getD k []) ∧
          (((Ardustat.get_cycle_data tr).current_cycles_raw_discharge.getD k []).length < 2 →
            (Ardustat.get_cycle_data tr).discharge_capacity.getD k 0 = 0)) := by
  intro k
  constructor
  · intro hk
    have hk1 : k < (scanState tr (tr.current.length - 1)).current_cycles_raw_charge.length := by
      rw [get_cycle_data_charge_capacity tr] at hk
      simpa using hk
    have hkL : k < (chargeIdx tr (tr.current.length - 1)).length := by
      rwa [scan_len_charge tr ht hv] at hk1
    have hcap : (Ardustat.get_cycle_data tr).charge_capacity.getD k 0 =
        trapz ((Ardustat.get_cycle_data tr).current_cycles_raw_charge.getD k [])
          ((Ardustat.get_cycle_data tr).time_cycles_raw_charge.getD k []) := by
      rw [get_cycle_data_charge_capacity tr]
      exact getD_map_range _ _ k hk1
    have hpow : (Ardustat.get_cycle_data tr).charge_power.getD k 0 =
        trapz ((List.range
            (((Ardustat.get_cycle_data tr).current_cycles_raw_charge.getD k []).length)).map
          (fun i => ((Ardustat.get_cycle_data tr).voltage_cycles_raw_charge.getD k []).getD i 0 *
            ((Ardustat.get_cycle_data tr).current_cycles_raw_charge.getD k []).getD i 0))
          ((Ardustat.get_cycle_data tr).time_cycles_raw_charge.getD k []) := by
      rw [get_cycle_data_charge_power tr]
      exact getD_map_range _ _ k hk1
    obtain ⟨g1, g2, g3⟩ := scan_getD_charge tr ht hv k hkL
    have hbmem : (chargeIdx tr (tr.current.length - 1)).get ⟨k, hkL⟩ ∈
        chargeIdx tr (tr.current.length - 1) := List.get_mem _ k hkL
    have hlen : ((Ardustat.get_cycle_data tr).voltage_cycles_raw_charge.getD k []).length =
        ((Ardustat.get_cycle_data tr).current_cycles_raw_charge.getD k []).length := by
      show ((scanState tr (tr.current.length - 1)).voltage_cycles_raw_charge.getD k []).length =
        ((scanState tr (tr.current.length - 1)).current_cycles_raw_charge.getD k []).length
      rw [g2, g3]
      have h1 := specSeg_len_tv tr (by omega) ((chargeIdx tr (tr.current.length - 1)).get ⟨k, hkL⟩)
      have h2 := specSeg_len_tc tr (by omega) ((chargeIdx tr (tr.current.length - 1)).get ⟨k, hkL⟩)
      omega
    refine ⟨?_, ?_, ?_⟩
    · rw [hcap]
      exact trapz_eq_trapzSpec _ _
    · rw [hpow, zipWith_mul_eq_map_range _ _ hlen]
      exact trapz_eq_trapzSpec _ _
    · intro hshort
      rw [hcap]
      exact trapz_short _ _ hshort
  · intro hk
    have hk1 : k <
        (scanState tr (tr.current.length - 1)).current_cycles_raw_discharge.length := by
      rw [get_cycle_data_discharge_capacity tr] at hk
      simpa using hk
    have hkL : k < (dischargeIdx tr (tr.current.length - 1)).length := by
      rwa [scan_len_discharge tr ht hv] at hk1
    have hcap : (Ardustat.get_cycle_data tr).discharge_capacity.getD k 0 =
        trapz ((Ardustat.get_cycle_data tr).current_cycles_raw_discharge.getD k [])
          ((Ardustat.get_cycle_data tr).time_cycles_raw_discharge.getD k []) := by
      rw [get_cycle_data_discharge_capacity tr]
      exact getD_map_range _ _ k hk1
    have hpow : (Ardustat.get_cycle_data tr).discharge_power.getD k 0 =
        trapz ((List.range
            (((Ardustat.get_cycle_data tr).current_cycles_raw_discharge.getD k []).length)).map
          (fun i =>
            ((Ardustat.get_cycle_data tr).voltage_cycles_raw_discharge.getD k []).getD i 0 *
              ((Ardustat.get_cycle_data tr).current_cycles_raw_discharge.getD k []).getD i 0))
          ((Ardustat.get_cycle_data tr).time_cycles_raw_discharge.getD k []) := by
      rw [get_cycle_data_discharge_power tr]
      exact getD_map_range _ _ k hk1
    obtain ⟨g1, g2, g3⟩ := scan_getD_discharge tr ht hv k hkL
    have hlen : ((Ardustat.get_cycle_data tr).voltage_cycles_raw_discharge.getD k []).length =
        ((Ardustat.get_cycle_data tr).current_cycles_raw_discharge.getD k []).length := by
      show ((scanState tr (tr.current.length - 1)).voltage_cycles_raw_discharge.getD k []).length =
        ((scanState tr (tr.current.length - 1)).current_cycles_raw_discharge.getD k []).length
      rw [g2, g3]
      have h1 := specSeg_len_tv tr (by omega)
        ((dischargeIdx tr (tr.current.length - 1)).get ⟨k, hkL⟩)
      have h2 := specSeg_len_tc tr (by omega)
        ((dischargeIdx tr (tr.current.length - 1)).get ⟨k, hkL⟩)
      omega
    refine ⟨?_, ?_, ?_⟩
    · rw [hcap]
      exact trapz_eq_trapzSpec _ _
    · rw [hpow, zipWith_mul_eq_map_range _ _ hlen]
      exact trapz_eq_trapzSpec _ _
    · intro hshort
      rw [hcap]
      exact trapz_short _ _ hshort

/-- Witness for C2: the trapezoid identity obtained at a concrete aligned
trace (index 0 of the charge sequence). -/
theorem claim_C2_witness :
    ((⟨[0, 1, 2], [7, 7, 7], [-1, 1, -1]⟩ : Trace).time.length =
        (⟨[0, 1, 2], [7, 7, 7], [-1, 1, -1]⟩ : Trace).current.length) ∧
      0 < (Ardustat.get_cycle_data ⟨[0, 1, 2], [7, 7, 7], [-1, 1, -1]⟩).charge_capacity.length ∧
      (Ardustat.get_cycle_data ⟨[0, 1, 2], [7, 7, 7], [-1, 1, -1]⟩).charge_capacity.getD 0 0 =
        trapzSpec
          ((Ardustat.get_cycle_data
            ⟨[0, 1, 2], [7, 7, 7], [-1, 1, -1]⟩).current_cycles_raw_charge.getD 0 [])
          ((Ardustat.get_cycle_data
            ⟨[0, 1, 2], [7, 7, 7], [-1, 1, -1]⟩).time_cycles_raw_charge.getD 0 []) := by
  have hrec : Ardustat.get_cycle_data ⟨[0, 1, 2], [7, 7, 7], [-1, 1, -1]⟩ =
      ⟨[[0]], [[7]], [[1]], [[1]], [[7]], [[1]], [0], [0], [0], [0]⟩ := by
    norm_num [Ardustat.get_cycle_data, scanStep, initState, trapz, List.range_succ]
  have hlen0 :
      0 < (Ardustat.get_cycle_data ⟨[0, 1, 2], [7, 7, 7], [-1, 1, -1]⟩).charge_capacity.length := by
    rw [hrec]
    simp
  exact ⟨rfl, hlen0, ((claim_C2 _ rfl rfl 0).1 hlen0).1⟩

lemma capacity_entry_nonneg (tr : Trace) (hpw : tr.time.Pairwise (· ≤ ·))
    (hct : tr.current.length = tr.time.length) (b : ℕ) :
    0 ≤ trapz (specSegCurrent tr b) (specSegTime tr b) := by
  apply trapz_nonneg
  · exact specSeg_len_tc tr hct b
  · exact List.Pairwise.sublist (sliceIdx_sublist _ _ _) hpw
  · apply getD_nonneg_of_forall
    intro v hvmem
    obtain ⟨w, _, rfl⟩ := List.mem_map.mp hvmem
    exact abs_nonneg w

lemma power_entry_nonneg (tr : Trace) (hpw : tr.time.Pairwise (· ≤ ·))
    (hct : tr.current.length = tr.time.length)
    (hvolt : ∀ w ∈ tr.voltage, 0 ≤ w) (b : ℕ) :
    0 ≤ trapz ((List.range (specSegCurrent tr b).length).map
        (fun i => (specSegVoltage tr b).getD i 0 * (specSegCurrent tr b).getD i 0))
      (specSegTime tr b) := by
  apply trapz_nonneg
  · simpa using specSeg_len_tc tr hct b
  · exact List.Pairwise.sublist (sliceIdx_sublist _ _ _) hpw
  · apply getD_nonneg_of_forall
    intro v hvmem
    obtain ⟨i, _, rfl⟩ := List.mem_map.mp hvmem
    apply mul_nonneg
    · apply getD_nonneg_of_forall
      intro w hw
      exact hvolt w ((sliceIdx_sublist _ _ _).subset hw)
    · apply getD_nonneg_of_forall
      intro w hw
      obtain ⟨u, _, rfl⟩ := List.mem_map.mp hw
      exact abs_nonneg u

/-- Claim C10: on an aligned trace with non-decreasing time, every element of
`charge_capacity` and `discharge_capacity` is non-negative (the integrand is
the absolute-valued current); if additionally every voltage value is
non-negative, every element of `charge_power` and `discharge_power` is
non-negative. -/
theorem claim_C10 (tr : Trace)
    (ht : tr.time.length = tr.current.length)
    (hv : tr.voltage.length = tr.current.length)
    (hmono : List.Chain' (· ≤ ·) tr.time) :
    ((∀ q ∈ (Ardustat.get_cycle_data tr).charge_capacity, 0 ≤ q) ∧
      (∀ q ∈ (Ardustat.get_cycle_data tr).discharge_capacity, 0 ≤ q)) ∧
    ((∀ w ∈ tr.voltage, 0 ≤ w) →
      (∀ q ∈ (Ardustat.get_cycle_data tr).charge_power, 0 ≤ q) ∧
      (∀ q ∈ (Ardustat.get_cycle_data tr).discharge_power, 0 ≤ q)) := by
  have hpw : tr.time.Pairwise (· ≤ ·) := List.chain'_iff_pairwise.mp hmono
  refine ⟨⟨?_, ?_⟩, ?_⟩
  · intro q hq
    rw [get_cycle_data_charge_capacity tr] at hq
    obtain ⟨k, hkr, rfl⟩ := List.mem_map.mp hq
    rw [List.mem_range] at hkr
    have hkL : k < (chargeIdx tr (tr.current.length - 1)).length := by
      rwa [scan_len_charge tr ht hv] at hkr
    obtain ⟨g1, g2, g3⟩ := scan_getD_charge tr ht hv k hkL
    rw [g1, g3]
    exact capacity_entry_nonneg tr hpw (by omega) _
  · intro q hq
    rw [get_cycle_data_discharge_capacity tr] at hq
    obtain ⟨k, hkr, rfl⟩ := List.mem_map.mp hq
    rw [List.mem_range] at hkr
    have hkL : k < (dischargeIdx tr (tr.current.length - 1)).length := by
      rwa [scan_len_discharge tr ht hv] at hkr
    obtain ⟨g1, g2, g3⟩ := scan_getD_discharge tr ht hv k hkL
    rw [g1, g3]
    exact capacity_entry_nonneg tr hpw (by omega) _
  · intro hvolt
    constructor
    · intro q hq
      rw [get_cycle_data_charge_power tr] at hq
      obtain ⟨k, hkr, rfl⟩ := List.mem_map.mp hq
      rw [List.mem_range] at hkr
      have hkL : k < (chargeIdx tr (tr.current.length - 1)).length := by
        rwa [scan_len_charge tr ht hv] at hkr
      obtain ⟨g1, g2, g3⟩ := scan_getD_charge tr ht hv k hkL
      rw [g1, g2, g3]
      exact power_entry_nonneg tr hpw (by omega) hvolt _
    · intro q hq
      rw [get_cycle_data_discharge_power tr] at hq
      obtain ⟨k, hkr, rfl⟩ := List.mem_map.mp hq
      rw [List.mem_range] at hkr
      have hkL : k < (dischargeIdx tr (tr.current.length - 1)).length := by
        rwa [scan_len_discharge tr ht hv] at hkr
      obtain ⟨g1, g2, g3⟩ := scan_getD_discharge tr ht hv k hkL
      rw [g1, g2, g3]
      exact power_entry_nonneg tr hpw (by omega) hvolt _

/-- Witness for C10 at a concrete aligned trace with non-decreasing time. -/
theorem claim_C10_witness :
    ((⟨[0, 1, 2], [7, 7, 7], [-1, 1, -1]⟩ : Trace).time.length =
        (⟨[0, 1, 2], [7, 7, 7], [-1, 1, -1]⟩ : Trace).current.length) ∧
      List.Chain' (· ≤ ·) (⟨[0, 1, 2], [7, 7, 7], [-1, 1, -1]⟩ : Trace).time ∧
      ∀ q ∈ (Ardustat.get_cycle_data ⟨[0, 1, 2], [7, 7, 7], [-1, 1, -1]⟩).charge_capacity,
        0 ≤ q :=
  ⟨rfl, by norm_num [List.chain'_cons],
    (claim_C10 _ rfl rfl (by norm_num [List.chain'_cons])).1.1⟩

/-! ## Closed form of the loading loop -/

/-- A row aborts loading under `cfg` exactly when the field at one of the
recognized column positions is present but fails `float(...)`. -/
def rowFails (cfg : Config) (row : List (Option ℚ)) : Prop :=
  row[cfg.time_index]? = some none ∨ row[cfg.voltage_index]? = some none ∨
    row[cfg.current_index]? = some none

instance (cfg : Config) (row : List (Option ℚ)) : Decidable (rowFails cfg row) := by
  unfold rowFails
  infer_instance

/-- A present field that parses contributes its value; a missing field (or,
at this level, any other shape) contributes nothing. -/
def fieldOf : Option (Option ℚ) → List ℚ
  | some (some v) => [v]
  | _ => []

/-- The contribution (zero or one parsed value) of a row to the column read
from position `i`. -/
def fieldAt (row : List (Option ℚ)) (i : ℕ) : List ℚ := fieldOf row[i]?

lemma getElem?_append_ne (row : List (Option ℚ)) (x : Option ℚ) (i : ℕ)
    (h : i ≠ row.length) : (row ++ [x])[i]? = row[i]? := by
  rcases Nat.lt_or_ge i row.length with h1 | h1
  · rw [List.getElem?_append_left h1]
  · rw [List.getElem?_eq_none (by simp; omega), List.getElem?_eq_none (by omega)]

lemma fieldAt_append_ne (row : List (Option ℚ)) (x : Option ℚ) (i : ℕ)
    (h : i ≠ row.length) : fieldAt (row ++ [x]) i = fieldAt row i :=
  congrArg fieldOf (getElem?_append_ne row x i h)

lemma fieldAt_self_nil (row : List (Option ℚ)) : fieldAt row row.length = [] := by
  unfold fieldAt
  rw [List.getElem?_eq_none (le_refl _)]
  rfl

lemma rowFails_append (cfg : Config) (row : List (Option ℚ)) (x : Option ℚ)
    (h : rowFails cfg row) : rowFails cfg (row ++ [x]) := by
  unfold rowFails at h ⊢
  have hb : ∀ i : ℕ, row[i]? = some (none : Option ℚ) →
      (row ++ [x])[i]? = some (none : Option ℚ) := by
    intro i hi
    have hlt : i < row.length := by
      by_contra hc
      rw [List.getElem?_eq_none (by omega)] at hi
      cases hi
    rw [List.getElem?_append_left hlt]
    exact hi
  rcases h with h | h | h
  · exact Or.inl (hb _ h)
  · exact Or.inr (Or.inl (hb _ h))
  · exact Or.inr (Or.inr (hb _ h))

lemma enum_concat (row : List (Option ℚ)) (x : Option ℚ) :
    (row ++ [x]).enum = row.enum ++ [(row.length, x)] := by
  simp [List.enum_append]

lemma processRow_concat (cfg : Config) (acc : Columns) (row : List (Option ℚ))
    (x : Option ℚ) :
    processRow cfg acc (row ++ [x]) =
      processRow cfg acc row >>= fun a => processField cfg a (row.length, x) := by
  unfold processRow
  rw [enum_concat, List.foldlM_append]
  simp

lemma rowFails_append_iff_ne (cfg : Config) (row : List (Option ℚ)) (x : Option ℚ)
    (h0 : cfg.time_index ≠ row.length) (h1 : cfg.voltage_index ≠ row.length)
    (h2 : cfg.current_index ≠ row.length) :
    rowFails cfg (row ++ [x]) ↔ rowFails cfg row := by
  unfold rowFails
  rw [getElem?_append_ne row x _ h0, getElem?_append_ne row x _ h1,
    getElem?_append_ne row x _ h2]

lemma fieldAt_concat_self (row : List (Option ℚ)) (x : Option ℚ) (i : ℕ)
    (h : i = row.length) : fieldAt (row ++ [x]) i = fieldOf (some x) := by
  unfold fieldAt
  rw [h, List.getElem?_concat_length]

/-- Closed form of one row's processing loop: the row aborts with
`ValueError` iff a recognized field is present but fails parsing; otherwise
each column is extended by the row's contribution at its configured
position.  The three configured positions must be distinct (they are in
every configuration considered here). -/
lemma processRow_closed (cfg : Config) (h01 : cfg.time_index ≠ cfg.voltage_index)
    (h02 : cfg.time_index ≠ cfg.current_index)
    (h12 : cfg.voltage_index ≠ cfg.current_index)
    (row : List (Option ℚ)) :
    ∀ acc : Columns,
      processRow cfg acc row =
        if rowFails cfg row then Except.error LoadError.valueError
        else Except.ok ⟨acc.time ++ fieldAt row cfg.time_index,
          acc.voltage ++ fieldAt row cfg.voltage_index,
          acc.current ++ fieldAt row cfg.current_index⟩ := by
  induction row using List.reverseRecOn with
  | nil =>
    intro acc
    have hnf : ¬ rowFails cfg ([] : List (Option ℚ)) := by
      unfold rowFails
      simp
    rw [if_neg hnf]
    simp only [processRow, List.enum_nil, List.foldlM_nil, fieldAt, List.getElem?_nil, fieldOf,
      List.append_nil]
    rfl
  | append_singleton row x ih =>
    intro acc
    rw [processRow_concat, ih acc]
    by_cases hrf : rowFails cfg row
    · rw [if_pos hrf, if_pos (rowFails_append cfg row x hrf)]
      rfl
    · rw [if_neg hrf]
      show processField cfg ⟨acc.time ++ fieldAt row cfg.time_index,
        acc.voltage ++ fieldAt row cfg.voltage_index,
        acc.current ++ fieldAt row cfg.current_index⟩ (row.length, x) = _
      unfold processField
      by_cases hA : row.length = cfg.time_index
      · rw [if_pos hA]
        rcases x with _ | v
        · have hfail : rowFails cfg (row ++ [none]) := by
            unfold rowFails
            exact Or.inl (by rw [← hA, List.getElem?_concat_length])
          rw [if_pos hfail]
        · have hnf2 : ¬ rowFails cfg (row ++ [some v]) := by
            unfold rowFails at hrf ⊢
            push_neg at hrf ⊢
            refine ⟨?_, ?_, ?_⟩
            · rw [← hA, List.getElem?_concat_length]
              simp
            · rw [getElem?_append_ne row _ _ (by omega)]
              exact hrf.2.1
            · rw [getElem?_append_ne row _ _ (by omega)]
              exact hrf.2.2
          rw [if_neg hnf2]
          rw [fieldAt_concat_self row (some v) cfg.time_index hA.symm,
            fieldAt_append_ne row _ _ (by omega), fieldAt_append_ne row _ _ (by omega)]
          have hnilt : fieldAt row cfg.time_index = [] := by
            rw [← hA]
            exact fieldAt_self_nil row
          rw [hnilt]
          simp [fieldOf]
      · rw [if_neg hA]
        by_cases hB : row.length = cfg.voltage_index
        · rw [if_pos hB]
          rcases x with _ | v
          · have hfail : rowFails cfg (row ++ [none]) := by
              unfold rowFails
              exact Or.inr (Or.inl (by rw [← hB, List.getElem?_concat_length]))
            rw [if_pos hfail]
          · have hnf2 : ¬ rowFails cfg (row ++ [some v]) := by
              unfold rowFails at hrf ⊢
              push_neg at hrf ⊢
              refine ⟨?_, ?_, ?_⟩
              · rw [getElem?_append_ne row _ _ (by omega)]
                exact hrf.1
              · rw [← hB, List.getElem?_concat_length]
                simp
              · rw [getElem?_append_ne row _ _ (by omega)]
                exact hrf.2.2
            rw [if_neg hnf2]
            rw [fieldAt_concat_self row (some v) cfg.voltage_index hB.symm,
              fieldAt_append_ne row _ _ (by omega), fieldAt_append_ne row _ _ (by omega)]
            have hnilv : fieldAt row cfg.voltage_index = [] := by
              rw [← hB]
              exact fieldAt_self_nil row
            rw [hnilv]
            simp [fieldOf]
        · rw [if_neg hB]
          by_cases hC : row.length = cfg.current_index
          · rw [if_pos hC]
            rcases x with _ | v
            · have hfail : rowFails cfg (row ++ [none]) := by
                unfold rowFails
                exact Or.inr (Or.inr (by rw [← hC, List.getElem?_concat_length]))
              rw [if_pos hfail]
            · have hnf2 : ¬ rowFails cfg (row ++ [some v]) := by
                unfold rowFails at hrf ⊢
                push_neg at hrf ⊢
                refine ⟨?_, ?_, ?_⟩
                · rw [getElem?_append_ne row _ _ (by omega)]
                  exact hrf.1
                · rw [getElem?_append_ne row _ _ (by omega)]
                  exact hrf.2.1
                · rw [← hC, List.getElem?_concat_length]
                  simp
              rw [if_neg hnf2]
              rw [fieldAt_concat_self row (some v) cfg.current_index hC.symm,
                fieldAt_append_ne row _ _ (by omega), fieldAt_append_ne row _ _ (by omega)]
              have hnilc : fieldAt row cfg.current_index = [] := by
                rw [← hC]
                exact fieldAt_self_nil row
              rw [hnilc]
              simp [fieldOf]
          · rw [if_neg hC]
            have hnf2 : ¬ rowFails cfg (row ++ [x]) := by
              rw [rowFails_append_iff_ne cfg row x (by omega) (by omega) (by omega)]
              exact hrf
            rw [if_neg hnf2]
            rw [fieldAt_append_ne row _ _ (by omega), fieldAt_append_ne row _ _ (by omega),
              fieldAt_append_ne row _ _ (by omega)]

lemma fieldAt_zero_of_ne (r : List (Option ℚ)) (hne : r ≠ [])
    (hok : ¬ r[(0:ℕ)]? = some (none : Option ℚ)) : (fieldAt r 0).length = 1 := by
  rcases r with _ | ⟨f, rest⟩
  · exact absurd rfl hne
  · rw [fieldAt, List.getElem?_cons_zero]
    rcases f with _ | w
    · exact absurd List.getElem?_cons_zero hok
    · rfl

lemma extract_error_iff (rows : List (List (Option ℚ))) :
    ∀ acc : Columns,
      ((rows.foldlM (processRow defaultConfig) acc).isOk = false ↔
        ∃ row ∈ rows, rowFails defaultConfig row) := by
  induction rows with
  | nil =>
    intro acc
    constructor
    · intro hfalse
      cases hfalse
    · intro ⟨row, hmem, _⟩
      cases hmem
  | cons r rs ih =>
    intro acc
    rw [List.foldlM_cons,
      processRow_closed defaultConfig (by decide) (by decide) (by decide) r acc]
    by_cases hrf : rowFails defaultConfig r
    · rw [if_pos hrf]
      constructor
      · intro _
        exact ⟨r, by simp, hrf⟩
      · intro _
        rfl
    · rw [if_neg hrf]
      rw [show (Except.ok (⟨acc.time ++ fieldAt r defaultConfig.time_index,
          acc.voltage ++ fieldAt r defaultConfig.voltage_index,
          acc.current ++ fieldAt r defaultConfig.current_index⟩ : Columns) >>=
            fun acc2 => rs.foldlM (processRow defaultConfig) acc2) =
          rs.foldlM (processRow defaultConfig)
            ⟨acc.time ++ fieldAt r defaultConfig.time_index,
              acc.voltage ++ fieldAt r defaultConfig.voltage_index,
              acc.current ++ fieldAt r defaultConfig.current_index⟩ from rfl]
      rw [ih]
      constructor
      · intro ⟨row, hmem, hbad⟩
        exact ⟨row, by simp [hmem], hbad⟩
      · intro ⟨row, hmem, hbad⟩
        rcases List.mem_cons.mp hmem with rfl | hmem2
        · exact absurd hbad hrf
        · exact ⟨row, hmem2, hbad⟩

lemma extract_ok_time_len (rows : List (List (Option ℚ))) :
    ∀ acc c : Columns, (∀ r ∈ rows, r ≠ []) →
      rows.foldlM (processRow defaultConfig) acc = Except.ok c →
      c.time.length = acc.time.length + rows.length := by
  induction rows with
  | nil =>
    intro acc c _ hok
    cases hok
    simp
  | cons r rs ih =>
    intro acc c hne hok
    rw [List.foldlM_cons,
      processRow_closed defaultConfig (by decide) (by decide) (by decide) r acc] at hok
    by_cases hrf : rowFails defaultConfig r
    · rw [if_pos hrf] at hok
      cases hok
    · rw [if_neg hrf] at hok
      have hok2 : rs.foldlM (processRow defaultConfig)
          ⟨acc.time ++ fieldAt r defaultConfig.time_index,
            acc.voltage ++ fieldAt r defaultConfig.voltage_index,
            acc.current ++ fieldAt r defaultConfig.current_index⟩ = Except.ok c := hok
      have hlen := ih _ c (fun q hq => hne q (by simp [hq])) hok2
      have hone : (fieldAt r defaultConfig.time_index).length = 1 := by
        have hnn : ¬ r[(0:ℕ)]? = some (none : Option ℚ) := by
          unfold rowFails at hrf
          push_neg at hrf
          exact hrf.1
        exact fieldAt_zero_of_ne r (hne r (by simp)) hnn
      rw [hlen]
      simp [hone]
      omega

/-- Claim C6, amended: with the default column layout, loading fails —
producing no partial trace — exactly when the file is empty (no rows at all)
or some row has a field at a recognized column position (0, 5 or 8) that is
not parseable as a floating-point number.  A row with fewer fields than the
required column indices does NOT by itself make loading fail: the missing
fields are silently skipped.  (Rows coming from `row.split(' ')` are never
empty field lists, whence the hypothesis.) -/
theorem claim_C6 (rows : List (List (Option ℚ))) (hrows : ∀ row ∈ rows, row ≠ []) :
    ((loadTrace defaultConfig rows).isOk = false ↔
      rows = [] ∨ ∃ row ∈ rows, rowFails defaultConfig row) := by
  cases hE : extractColumns defaultConfig rows with
  | error e =>
    have hload : loadTrace defaultConfig rows = Except.error e := by
      unfold loadTrace
      simp only [hE]
    have hbad : ∃ row ∈ rows, rowFails defaultConfig row := by
      rw [← extract_error_iff rows ⟨[], [], []⟩]
      show (extractColumns defaultConfig rows).isOk = false
      rw [hE]
      rfl
    rw [hload]
    constructor
    · intro _
      exact Or.inr hbad
    · intro _
      rfl
  | ok c =>
    have hnobad : ¬ ∃ row ∈ rows, rowFails defaultConfig row := by
      rw [← extract_error_iff rows ⟨[], [], []⟩]
      show ¬ (extractColumns defaultConfig rows).isOk = false
      rw [hE]
      intro hx
      cases hx
    cases hT : c.time with
    | nil =>
      have hload : loadTrace defaultConfig rows = Except.error LoadError.indexError := by
        unfold loadTrace
        simp only [hE, hT]
      have hlen := extract_ok_time_len rows ⟨[], [], []⟩ c hrows hE
      rw [hT] at hlen
      simp at hlen
      rw [hload]
      constructor
      · intro _
        exact Or.inl (List.length_eq_zero.mp hlen.symm)
      · intro _
        rfl
    | cons t0 rest =>
      have hload : (loadTrace defaultConfig rows).isOk = true := by
        unfold loadTrace
        simp only [hE, hT]
        rfl
      constructor
      · intro hfalse
        rw [hload] at hfalse
        cases hfalse
      · intro hor
        rcases hor with rfl | hbad
        · have h2 : Except.ok (⟨[], [], []⟩ : Columns) = Except.ok c := hE
          cases h2
          simp at hT
        · exact absurd hbad hnobad

/-- Counterexample to C6 as stated: a row with a single field — far fewer
than the nine fields the required column indices demand — loads without any
error, producing a (degenerate) trace; `MalformedInputError` for short rows
does not exist in the code, which silently skips absent columns. -/
theorem claim_C6_counterexample :
    (([some 5] : List (Option ℚ)).length < 9) ∧
      loadTrace defaultConfig [[some 5]] = Except.ok ⟨[0], [], []⟩ := by
  constructor
  · decide
  · norm_num [loadTrace, extractColumns, processRow, processField, defaultConfig, List.enum]

/-- Witness for the amended C6 at a concrete failing file. -/
theorem claim_C6_witness :
    (∀ row ∈ [[(none : Option ℚ)]], row ≠ []) ∧
      ((loadTrace defaultConfig [[(none : Option ℚ)]]).isOk = false ↔
        [[(none : Option ℚ)]] = [] ∨
          ∃ row ∈ [[(none : Option ℚ)]], rowFails defaultConfig row) :=
  ⟨by simp, claim_C6 [[(none : Option ℚ)]] (by simp)⟩

lemma getD_map_time (f : ℚ → ℚ) (l : List ℚ) (i : ℕ) (h : i < l.length) :
    (l.map f).getD i 0 = f (l.getD i 0) := by
  rw [List.getD_eq_getElem?_getD, List.getElem?_map, List.getElem?_eq_getElem h,
    getD_eq_get l i h]
  simp

/-- Claim C7: whenever loading succeeds, the trace's time sequence is the
raw extracted time column normalized by
`time[i] = (raw_time[i] - raw_time[0]) / 3600000`, anchoring `time[0] = 0`. -/
theorem claim_C7 (rows : List (List (Option ℚ))) (tr : Trace)
    (h : loadTrace defaultConfig rows = Except.ok tr) :
    ∃ cols, extractColumns defaultConfig rows = Except.ok cols ∧
      tr.time.length = cols.time.length ∧
      (∀ i, i < cols.time.length →
        tr.time.getD i 0 = (cols.time.getD i 0 - cols.time.getD 0 0) / 3600000) ∧
      tr.time.getD 0 0 = 0 := by
  unfold loadTrace at h
  cases hE : extractColumns defaultConfig rows with
  | error e =>
    rw [hE] at h
    cases h
  | ok cols =>
    rw [hE] at h
    dsimp only at h
    cases hT : cols.time with
    | nil =>
      rw [hT] at h
      cases h
    | cons t0 rest =>
      rw [hT] at h
      have htr : tr = ⟨cols.time.map (fun x => (x - t0) / 3600000),
          cols.voltage, cols.current⟩ := by
        cases h
        rw [hT]
      have ht0 : cols.time.getD 0 0 = t0 := by
        rw [hT]
        rfl
      refine ⟨cols, rfl, ?_, ?_, ?_⟩
      · rw [htr]
        simp
      · intro i hi
        rw [htr, ht0]
        show (cols.time.map (fun x => (x - t0) / 3600000)).getD i 0 = _
        rw [getD_map_time (fun x => (x - t0) / 3600000) cols.time i hi]
      · rw [htr]
        show (cols.time.map (fun x => (x - t0) / 3600000)).getD 0 0 = 0
        have h0 : 0 < cols.time.length := by
          rw [hT]
          simp
        rw [getD_map_time (fun x => (x - t0) / 3600000) cols.time 0 h0, ht0]
        simp

/-- Witness for C7 at a concrete successfully-loaded file. -/
theorem claim_C7_witness :
    loadTrace defaultConfig
        [[some 3600000, some 1, some 1, some 1, some 1, some 4, some 1, some 1, some 9]] =
      Except.ok ⟨[0], [4], [9]⟩ ∧
    ∃ cols, extractColumns defaultConfig
        [[some 3600000, some 1, some 1, some 1, some 1, some 4, some 1, some 1, some 9]] =
          Except.ok cols ∧
      (⟨[0], [4], [9]⟩ : Trace).time.length = cols.time.length ∧
      (∀ i, i < cols.time.length →
        (⟨[0], [4], [9]⟩ : Trace).time.getD i 0 =
          (cols.time.getD i 0 - cols.time.getD 0 0) / 3600000) ∧
      (⟨[0], [4], [9]⟩ : Trace).time.getD 0 0 = 0 := by
  have hload : loadTrace defaultConfig
      [[some 3600000, some 1, some 1, some 1, some 1, some 4, some 1, some 1, some 9]] =
      Except.ok ⟨[0], [4], [9]⟩ := by
    norm_num [loadTrace, extractColumns, processRow, processField, defaultConfig, List.enum,
      Bind.bind, Except.bind, pure, Except.pure]
  exact ⟨hload, claim_C7 _ _ hload⟩

/-- Swap the fields at positions 5 and 8 of a row (the voltage and current
columns under the default layout). -/
def swapVC (row : List (Option ℚ)) : List (Option ℚ) :=
  row.mapIdx (fun i v =>
    if i = 5 then row.getD 8 none else if i = 8 then row.getD 5 none else v)

lemma swapVC_fields (row : List (Option ℚ)) (h9 : 9 ≤ row.length) :
    (swapVC row)[(0 : ℕ)]? = row[(0 : ℕ)]? ∧ (swapVC row)[(5 : ℕ)]? = row[(8 : ℕ)]? ∧
      (swapVC row)[(8 : ℕ)]? = row[(5 : ℕ)]? := by
  unfold swapVC
  have h5 : (5 : ℕ) < row.length := by omega
  have h8 : (8 : ℕ) < row.length := by omega
  have h0 : (0 : ℕ) < row.length := by omega
  refine ⟨?_, ?_, ?_⟩
  · rw [List.getElem?_mapIdx, List.getElem?_eq_getElem h0]
    simp
  · rw [List.getElem?_mapIdx, List.getElem?_eq_getElem h5]
    simp [List.getD_eq_getElem?_getD, List.getElem?_eq_getElem h8]
  · rw [List.getElem?_mapIdx, List.getElem?_eq_getElem h8]
    simp [List.getD_eq_getElem?_getD, List.getElem?_eq_getElem h5]

lemma processRow_swap (row : List (Option ℚ)) (h9 : 9 ≤ row.length) (acc : Columns) :
    processRow ⟨0, 8, 5⟩ acc (swapVC row) = processRow defaultConfig acc row := by
  obtain ⟨s0, s5, s8⟩ := swapVC_fields row h9
  rw [processRow_closed ⟨0, 8, 5⟩ (by decide) (by decide) (by decide) (swapVC row) acc,
    processRow_closed defaultConfig (by decide) (by decide) (by decide) row acc]
  have f0 : fieldAt (swapVC row) 0 = fieldAt row 0 := congrArg fieldOf s0
  have f5 : fieldAt (swapVC row) 5 = fieldAt row 8 := congrArg fieldOf s5
  have f8 : fieldAt (swapVC row) 8 = fieldAt row 5 := congrArg fieldOf s8
  have hfail : rowFails ⟨0, 8, 5⟩ (swapVC row) ↔ rowFails defaultConfig row := by
    unfold rowFails defaultConfig
    simp only [s0, s5, s8]
  by_cases hf : rowFails defaultConfig row
  · rw [if_pos hf, if_pos (hfail.mpr hf)]
  · rw [if_neg hf, if_neg (fun hc => hf (hfail.mp hc))]
    simp only [defaultConfig, f0, f5, f8]

lemma extract_swap (rows : List (List (Option ℚ))) (h9 : ∀ row ∈ rows, 9 ≤ row.length) :
    ∀ acc, (rows.map swapVC).foldlM (processRow ⟨0, 8, 5⟩) acc =
      rows.foldlM (processRow defaultConfig) acc := by
  induction rows with
  | nil =>
    intro acc
    rfl
  | cons r rs ih =>
    intro acc
    rw [List.map_cons, List.foldlM_cons, List.foldlM_cons,
      processRow_swap r (h9 r (by simp)) acc]
    cases hres : processRow defaultConfig acc r with
    | error e =>
      rfl
    | ok acc2 =>
      show (rs.map swapVC).foldlM (processRow ⟨0, 8, 5⟩) acc2 =
        rs.foldlM (processRow defaultConfig) acc2
      exact ih (fun row hr => h9 row (by simp [hr])) acc2

/-- Claim C9, amended: the constructor accepts keyword arguments but ignores
them, so passing swapped `voltage_index`/`current_index` kwargs has no
effect; the column positions are the class attributes `(0, 5, 8)`.  The
round trip does hold at the level of those attributes: loading a file whose
voltage and current columns are swapped, with the voltage/current column
attributes swapped accordingly, produces a trace identical to loading the
original file with the default attributes. -/
theorem claim_C9 (rows : List (List (Option ℚ))) (h9 : ∀ row ∈ rows, 9 ≤ row.length) :
    (∀ kw : Kwargs, Ardustat.init rows kw = loadTrace defaultConfig rows) ∧
      loadTrace ⟨0, 8, 5⟩ (rows.map swapVC) = loadTrace defaultConfig rows := by
  constructor
  · intro kw
    rfl
  · unfold loadTrace
    rw [show extractColumns ⟨0, 8, 5⟩ (rows.map swapVC) =
      extractColumns defaultConfig rows from extract_swap rows h9 ⟨[], [], []⟩]

/-- Counterexample to C9 as stated: the keyword arguments
`voltage_index := 8, current_index := 5` are ignored by the constructor, so
loading the column-swapped file with them yields a trace with voltage and
current interchanged relative to the default load of the original file,
not an identical trace. -/
theorem claim_C9_counterexample :
    Ardustat.init
        [[some 0, some 0, some 0, some 0, some 0, some 100, some 0, some 0, some 37]]
        ⟨none, some 8, some 5⟩ =
      Except.ok ⟨[0], [100], [37]⟩ ∧
    Ardustat.init
        [[some 0, some 0, some 0, some 0, some 0, some 37, some 0, some 0, some 100]]
        ⟨none, none, none⟩ =
      Except.ok ⟨[0], [37], [100]⟩ ∧
    (⟨[0], [100], [37]⟩ : Trace) ≠ ⟨[0], [37], [100]⟩ := by
  refine ⟨?_, ?_, ?_⟩
  · norm_num [Ardustat.init, loadTrace, extractColumns, processRow, processField, defaultConfig,
      List.enum, Bind.bind, Except.bind, pure, Except.pure]
  · norm_num [Ardustat.init, loadTrace, extractColumns, processRow, processField, defaultConfig,
      List.enum, Bind.bind, Except.bind, pure, Except.pure]
  · intro h
    have h2 : ([100] : List ℚ) = [37] := congrArg Trace.voltage h
    have h3 : (100 : ℚ) = 37 := by
      injection h2
    norm_num at h3

/-- Witness for the amended C9 at a concrete one-row file with nine
fields. -/
theorem claim_C9_witness :
    (∀ row ∈ [[some 0, some 0, some 0, some 0, some 0, some 37, some 0, some 0,
        some (100 : ℚ)]], 9 ≤ row.length) ∧
      loadTrace ⟨0, 8, 5⟩
          ([[some 0, some 0, some 0, some 0, some 0, some 37, some 0, some 0,
            some (100 : ℚ)]].map swapVC) =
        loadTrace defaultConfig
          [[some 0, some 0, some 0, some 0, some 0, some 37, some 0, some 0,
            some (100 : ℚ)]] := by
  have h9 : ∀ row ∈ [[some 0, some 0, some 0, some 0, some 0, some 37, some 0, some 0,
      some (100 : ℚ)]], 9 ≤ row.length := by
    intro row hr
    rw [List.mem_singleton] at hr
    rw [hr]
    rfl
  exact ⟨h9, (claim_C9 _ h9).2⟩
